import Mathlib

/-!
Verification of the synthetic parabola data generator
(`src/examples/genParabolaData.py`).

The script is a linear numerical pipeline:

  x = np.linspace(-3, 3, 301)
  a, b, c = 4.2, 0.666, -0.23
  y = a*x**2 + b*x + c
  sig_y = 1 + 0.05*np.abs(y)
  randomized_y[i] = random.gauss(y[i], sig_y[i])   for i in range(len(y))
  np.savetxt('parabolaData.xye', np.c_[x, randomized_y, sig_y], fmt='%10.5f')

We embed the numeric pipeline over the rationals (exact arithmetic; all
tolerance claims then hold with slack).  Randomness is modelled by an
entropy stream `z : ℕ → ℚ` of standard-normal draws: `random.gauss mu s`
returns `mu + s * Z` for one such draw `Z`.  The text output of
`np.savetxt` with format `%10.5f` and delimiter a single space is
modelled character by character (`List Char`), including `%f` rounding to
five decimal places and right alignment to field width 10.  The file
write itself is modelled as a fallible writer returning `Except`.
-/

namespace GenParabola

/-- `np.linspace lo hi num`: `num` evenly spaced samples from `lo` to `hi`
inclusive, sample `i` being `lo + i * (hi - lo)/(num - 1)`. -/
def linspace (lo hi : ℚ) (num : ℕ) : List ℚ :=
  (List.range num).map (fun (i : ℕ) => lo + (i : ℚ) * ((hi - lo) / ((num : ℚ) - 1)))

/-- Curve coefficient `a = 4.2` from the script. -/
def a : ℚ := 4.2

/-- Curve coefficient `b = 0.666` from the script. -/
def b : ℚ := 0.666

/-- Curve coefficient `c = -0.23` from the script. -/
def c : ℚ := -0.23

/-- `y = a*x**2 + b*x + c`, elementwise on a grid. -/
def yOf (grid : List ℚ) : List ℚ :=
  grid.map (fun t => a * t ^ 2 + b * t + c)

/-- `sig_y = 1 + 0.05*np.abs(y)`, elementwise. -/
def sigOf (grid : List ℚ) : List ℚ :=
  (yOf grid).map (fun t => 1 + 0.05 * |t|)

/-- Model of `random.gauss mu sigma`: one standard-normal draw `zdraw`
scaled to mean `mu` and standard deviation `sigma`. -/
def gauss (mu sigma zdraw : ℚ) : ℚ := mu + sigma * zdraw

/-- The loop `for i in range(len(y)): randomized_y.append(random.gauss(y[i], sig_y[i]))`,
consuming the stream draw `z i` at index `i`. -/
def randomizedYOf (grid : List ℚ) (z : ℕ → ℚ) : List ℚ :=
  (List.range (yOf grid).length).map
    (fun i => gauss ((yOf grid).getD i 0) ((sigOf grid).getD i 0) (z i))

/-- `np.c_[x, randomized_y, sig_y]`: the row-major table of triples. -/
def rowsOf (grid : List ℚ) (z : ℕ → ℚ) : List (ℚ × ℚ × ℚ) :=
  (List.range grid.length).map
    (fun i => (grid.getD i 0, (randomizedYOf grid z).getD i 0, (sigOf grid).getD i 0))

/-- The script's grid `x = np.linspace(-3, 3, 301)`. -/
def x : List ℚ := linspace (-3) 3 301

/-- The script's ideal values `y`. -/
def y : List ℚ := yOf x

/-- The script's uncertainties `sig_y`. -/
def sig_y : List ℚ := sigOf x

/-- The script's noisy samples `randomized_y`, given the entropy stream `z`. -/
def randomized_y (z : ℕ → ℚ) : List ℚ := randomizedYOf x z

/-! ### Text formatting (`np.savetxt` with `fmt='%10.5f'`) -/

/-- The ASCII digit character for `n % 10`. -/
def digitChar (n : ℕ) : Char := Char.ofNat (48 + n % 10)

/-- Decimal digits of a natural number, most significant first. -/
def natChars (n : ℕ) : List Char :=
  if n = 0 then ['0'] else (Nat.digits 10 n).reverse.map digitChar

/-- Exactly five fractional digits of `m < 100000`, most significant first. -/
def frac5 (m : ℕ) : List Char :=
  [digitChar (m / 10000), digitChar (m / 1000), digitChar (m / 100),
   digitChar (m / 10), digitChar m]

/-- Sign of the `%f` rendering: a minus sign when the rounded value is negative. -/
def signChars (q : ℚ) : List Char :=
  if round (q * 100000) < 0 then ['-'] else []

/-- Integer part of the `%f` rendering. -/
def intChars (q : ℚ) : List Char :=
  natChars ((round (q * 100000)).natAbs / 100000)

/-- The five fractional digits of the `%.5f` rendering. -/
def fracChars (q : ℚ) : List Char :=
  frac5 ((round (q * 100000)).natAbs % 100000)

/-- The unpadded `%.5f` rendering: sign, integer part, point, five digits. -/
def fixedBody (q : ℚ) : List Char :=
  signChars q ++ intChars q ++ '.' :: fracChars q

/-- `'%10.5f' % q`: round to 5 decimal places, print sign, integer part,
point and five fractional digits, right-aligned with spaces to width 10. -/
def fixedChars (q : ℚ) : List Char :=
  List.replicate (10 - (fixedBody q).length) ' ' ++ fixedBody q

/-- One output line: the three fields joined by single spaces, newline-terminated
(`np.savetxt` joins `fmt` per column with delimiter `' '` and appends `'\n'`). -/
def lineChars (r : ℚ × ℚ × ℚ) : List Char :=
  fixedChars r.1 ++ [' '] ++ fixedChars r.2.1 ++ [' '] ++ fixedChars r.2.2 ++ ['\n']

/-- The full file contents: the data lines in row order, nothing else. -/
def fileChars (grid : List ℚ) (z : ℕ → ℚ) : List Char :=
  ((rowsOf grid z).map lineChars).flatten

/-- A fallible file writer: `np.savetxt` either writes the content or raises. -/
def savetxt (w : List Char → Except String Unit) (content : List Char) :
    Except String Unit :=
  w content

/-- The whole script run: compute the table, then the single write call
(the script installs no exception handler around it). -/
def script (z : ℕ → ℚ) (w : List Char → Except String Unit) : Except String Unit :=
  savetxt w (fileChars x z)

/-! ### A reader for the written file (for the round-trip claim)

`parseField` reads one whitespace-separated column: it skips spaces, an
optional minus sign, a digit run, and an optional point followed by a
digit run, and returns the denoted rational together with the rest of the
input.  `parseLine3` reads the three columns of one line. -/

/-- Numeric value of an ASCII digit character. -/
def charVal (cc : Char) : ℕ := cc.toNat - 48

/-- Read a maximal digit run: returns the accumulated value, the number of
digits read, and the remaining input. -/
def readDigitsAux : List Char → ℕ → ℕ → ℕ × ℕ × List Char
  | [], acc, k => (acc, k, [])
  | cc :: cs, acc, k =>
    if cc.isDigit then readDigitsAux cs (10 * acc + charVal cc) (k + 1)
    else (acc, k, cc :: cs)

/-- True when the input does not begin with a digit. -/
def headNotDigit : List Char → Bool
  | [] => true
  | cc :: _ => !cc.isDigit

/-- Parse one whitespace-separated decimal field. -/
def parseField (s : List Char) : ℚ × List Char :=
  let s1 := s.dropWhile (fun cc => cc == ' ')
  let neg : Bool := decide (s1.head? = some '-')
  let s2 := if neg then s1.tail else s1
  let p := readDigitsAux s2 0 0
  match p.2.2 with
  | [] => ((if neg then (-1 : ℚ) else 1) * (p.1 : ℚ), [])
  | c2 :: s4 =>
    if c2 = '.' then
      let p2 := readDigitsAux s4 0 0
      ((if neg then (-1 : ℚ) else 1) * ((p.1 : ℚ) + (p2.1 : ℚ) / 10 ^ p2.2.1),
        p2.2.2)
    else ((if neg then (-1 : ℚ) else 1) * (p.1 : ℚ), c2 :: s4)

/-- Parse the three columns of one line. -/
def parseLine3 (s : List Char) : ℚ × ℚ × ℚ :=
  let q1 := parseField s
  let q2 := parseField q1.2
  let q3 := parseField q2.2
  (q1.1, q2.1, q3.1)

/-- The value actually denoted by the `%10.5f` rendering of `q`:
`q` rounded to five decimal places. -/
def qfix (q : ℚ) : ℚ := (round (q * 100000) : ℚ) / 100000

/-! ### Helper lemmas -/

theorem getD_map_range {α : Type} (f : ℕ → α) {n i : ℕ} (d : α) (h : i < n) :
    ((List.range n).map f).getD i d = f i := by
  simp [List.getD_eq_getElem?_getD, List.getElem?_map, List.getElem?_range h]

theorem getD_map {α β : Type} (f : α → β) (l : List α) {i : ℕ} (h : i < l.length)
    (d : β) (d' : α) : (l.map f).getD i d = f (l.getD i d') := by
  simp [List.getD_eq_getElem?_getD, List.getElem?_map, List.getElem?_eq_getElem h]

theorem length_linspace (lo hi : ℚ) (num : ℕ) : (linspace lo hi num).length = num := by
  simp [linspace]

theorem x_length : x.length = 301 := by
  simp [x, length_linspace]

theorem x_getD (i : ℕ) (h : i < 301) : x.getD i 0 = -3 + (i : ℚ) * (1 / 50) := by
  rw [x, linspace, getD_map_range _ _ h]
  norm_num

theorem yOf_length (grid : List ℚ) : (yOf grid).length = grid.length := by
  simp [yOf]

theorem sigOf_length (grid : List ℚ) : (sigOf grid).length = grid.length := by
  simp [sigOf, yOf]

theorem y_getD (i : ℕ) (h : i < 301) :
    y.getD i 0 = a * (x.getD i 0) ^ 2 + b * (x.getD i 0) + c := by
  have hx : i < x.length := by rw [x_length]; exact h
  rw [y, yOf, getD_map (fun t => a * t ^ 2 + b * t + c) x hx 0 0]

theorem sig_y_getD (i : ℕ) (h : i < 301) :
    sig_y.getD i 0 = 1 + 0.05 * |y.getD i 0| := by
  have hy : i < (yOf x).length := by rw [yOf_length, x_length]; exact h
  rw [sig_y, sigOf, getD_map (fun t => 1 + 0.05 * |t|) (yOf x) hy 0 0, y]

theorem x_getElem? (i : ℕ) (h : i < 301) : x[i]? = some (-3 + (i : ℚ) * (1 / 50)) := by
  rw [x, linspace, List.getElem?_map, List.getElem?_range h]
  simp only [Option.map_some']
  norm_num

theorem x_pairwise : List.Pairwise (fun p q => p < q) x := by
  rw [x, linspace]
  refine List.Pairwise.map _ ?_ (List.pairwise_lt_range 301)
  intro i j hij
  have hc : (i : ℚ) < (j : ℚ) := by exact_mod_cast hij
  have hs : (0 : ℚ) < (3 - -3) / ((301 : ℚ) - 1) := by norm_num
  exact add_lt_add_left (mul_lt_mul_of_pos_right hc hs) _

/-! ### Character and format lemmas -/

theorem isDigit_digitChar (n : ℕ) : (digitChar n).isDigit = true := by
  have h : n % 10 < 10 := Nat.mod_lt _ (by norm_num)
  rw [digitChar]
  set r := n % 10 with hr
  interval_cases r <;> decide

theorem charVal_digitChar (n : ℕ) : charVal (digitChar n) = n % 10 := by
  have h : n % 10 < 10 := Nat.mod_lt _ (by norm_num)
  rw [digitChar, charVal]
  set r := n % 10 with hr
  interval_cases r <;> decide

theorem mem_natChars_isDigit (n : ℕ) : ∀ cc ∈ natChars n, cc.isDigit = true := by
  intro cc hcc
  rw [natChars] at hcc
  split at hcc
  · simp only [List.mem_singleton] at hcc
    subst hcc
    decide
  · simp only [List.mem_map, List.mem_reverse] at hcc
    obtain ⟨d, _, rfl⟩ := hcc
    exact isDigit_digitChar d

theorem natChars_ne_nil (n : ℕ) : natChars n ≠ [] := by
  rw [natChars]
  split
  · simp
  · rename_i h
    simp [Nat.digits_ne_nil_iff_ne_zero, h]

theorem mem_frac5_isDigit (m : ℕ) : ∀ cc ∈ frac5 m, cc.isDigit = true := by
  intro cc hcc
  simp only [frac5, List.mem_cons, List.not_mem_nil, or_false] at hcc
  rcases hcc with rfl | rfl | rfl | rfl | rfl <;> exact isDigit_digitChar _

theorem fixedChars_eq (q : ℚ) :
    fixedChars q =
      (List.replicate (10 - (fixedBody q).length) ' ' ++ signChars q ++ intChars q)
        ++ '.' :: fracChars q := by
  simp [fixedChars, fixedBody, List.append_assoc]

theorem fixedChars_length (q : ℚ) : 10 ≤ (fixedChars q).length := by
  rw [fixedChars]
  simp only [List.length_append, List.length_replicate]
  omega

/-! ### Parser lemmas -/

theorem isDigit_ne_minus {cc : Char} (h : cc.isDigit = true) : cc ≠ '-' := by
  rintro rfl
  exact absurd h (by decide)

theorem isDigit_beq_space {cc : Char} (h : cc.isDigit = true) : (cc == ' ') = false := by
  rw [beq_eq_false_iff_ne]
  rintro rfl
  exact absurd h (by decide)

theorem readDigitsAux_stop (l : List Char) (h : headNotDigit l = true) (acc k : ℕ) :
    readDigitsAux l acc k = (acc, k, l) := by
  cases l with
  | nil => rfl
  | cons cc cs =>
    simp only [headNotDigit, Bool.not_eq_true'] at h
    simp [readDigitsAux, h]

theorem readDigitsAux_run :
    ∀ ds : List Char, (∀ cc ∈ ds, cc.isDigit = true) →
      ∀ (rest : List Char) (acc k : ℕ),
        readDigitsAux (ds ++ rest) acc k =
          readDigitsAux rest (ds.foldl (fun a0 cc => 10 * a0 + charVal cc) acc)
            (k + ds.length) := by
  intro ds
  induction ds with
  | nil => intro _ rest acc k; simp
  | cons cc t ih =>
    intro hds rest acc k
    have h1 : cc.isDigit = true := hds cc (List.mem_cons_self cc t)
    have h2 : ∀ dd ∈ t, dd.isDigit = true :=
      fun dd hdd => hds dd (List.mem_cons_of_mem _ hdd)
    simp only [List.cons_append, readDigitsAux, h1, if_true, List.append_eq]
    rw [ih h2 rest]
    simp only [List.foldl_cons, List.length_cons]
    congr 1
    omega

theorem foldl_digitsRev (L : List ℕ) (hL : ∀ d ∈ L, d < 10) :
    ∀ acc : ℕ,
      (L.reverse.map digitChar).foldl (fun a0 cc => 10 * a0 + charVal cc) acc =
        acc * 10 ^ L.length + Nat.ofDigits 10 L := by
  induction L with
  | nil => intro acc; simp [Nat.ofDigits_nil]
  | cons d t ih =>
    intro acc
    have hd : d < 10 := hL d (List.mem_cons_self d t)
    have ht : ∀ dd ∈ t, dd < 10 := fun dd hdd => hL dd (List.mem_cons_of_mem _ hdd)
    rw [List.reverse_cons, List.map_append, List.foldl_append, ih ht acc]
    simp only [List.map_cons, List.map_nil, List.foldl_cons, List.foldl_nil,
      charVal_digitChar, Nat.mod_eq_of_lt hd, List.length_cons,
      Nat.ofDigits_cons]
    ring

theorem foldl_natChars (n : ℕ) (acc : ℕ) :
    (natChars n).foldl (fun a0 cc => 10 * a0 + charVal cc) acc =
      acc * 10 ^ (natChars n).length + n := by
  rw [natChars]
  split
  · rename_i h
    subst h
    simp [charVal]
    ring
  · rw [foldl_digitsRev (Nat.digits 10 n)
      (fun d hd => Nat.digits_lt_base (by norm_num) hd) acc, Nat.ofDigits_digits]
    simp

theorem foldl_frac5 (m : ℕ) (acc : ℕ) :
    (frac5 m).foldl (fun a0 cc => 10 * a0 + charVal cc) acc =
      acc * 100000 + m % 100000 := by
  simp only [frac5, List.foldl_cons, List.foldl_nil, charVal_digitChar]
  omega

theorem dropWhile_space_replicate (k : ℕ) (l : List Char) :
    (List.replicate k ' ' ++ l).dropWhile (fun cc => cc == ' ') =
      l.dropWhile (fun cc => cc == ' ') := by
  induction k with
  | zero => rfl
  | succ k ih =>
    simp only [List.replicate_succ, List.cons_append, List.dropWhile_cons]
    simp [ih]

theorem dropWhile_space_cons {cc : Char} (l : List Char) (h : (cc == ' ') = false) :
    (cc :: l).dropWhile (fun c2 => c2 == ' ') = cc :: l := by
  simp [List.dropWhile_cons, h]

theorem headNotDigit_cons (cc : Char) (l : List Char) :
    headNotDigit (cc :: l) = !cc.isDigit := rfl

theorem frac5_length (m : ℕ) : (frac5 m).length = 5 := rfl

theorem parseField_fixedChars (q : ℚ) (rest : List Char)
    (h : headNotDigit rest = true) :
    parseField (fixedChars q ++ rest) = (qfix q, rest) := by
  set n : ℤ := round (q * 100000) with hn
  set m : ℕ := n.natAbs with hm
  set mi : ℕ := m / 100000 with hmi
  set mf : ℕ := m % 100000 with hmf
  have hmval : mi * 100000 + mf = m := by omega
  have hmfmod : mf % 100000 = mf := by omega
  have hstopdot : headNotDigit ('.' :: (frac5 mf ++ rest)) = true := by
    rw [headNotDigit_cons]
    decide
  have hq : qfix q = (n : ℚ) / 100000 := by rw [qfix, hn]
  have hval : ((mi : ℚ) + (mf : ℚ) / 10 ^ 5) = (m : ℚ) / 100000 := by
    have hc : (mi : ℚ) * 100000 + (mf : ℚ) = (m : ℚ) := by exact_mod_cast hmval
    field_simp
    linarith
  by_cases hneg : n < 0
  · have hbody : fixedBody q ++ rest =
        '-' :: (natChars mi ++ ('.' :: (frac5 mf ++ rest))) := by
      rw [fixedBody, signChars, intChars, fracChars, ← hn, ← hm, ← hmi, ← hmf,
        if_pos hneg]
      simp [List.append_assoc]
    have hs1 : (fixedChars q ++ rest).dropWhile (fun cc => cc == ' ') =
        '-' :: (natChars mi ++ ('.' :: (frac5 mf ++ rest))) := by
      rw [fixedChars, List.append_assoc, dropWhile_space_replicate, hbody,
        dropWhile_space_cons _ (by decide)]
    have hmq : (m : ℚ) = -(n : ℚ) := by
      rw [hm, Int.cast_natAbs, abs_of_neg hneg]
      push_cast
      ring
    simp only [parseField]
    rw [hs1]
    simp only [List.head?_cons, List.tail_cons, decide_eq_true_eq, if_true]
    rw [readDigitsAux_run (natChars mi) (mem_natChars_isDigit mi) _ 0 0,
      readDigitsAux_stop _ hstopdot, foldl_natChars]
    simp only [Nat.zero_mul, Nat.zero_add]
    rw [readDigitsAux_run (frac5 mf) (mem_frac5_isDigit mf) rest 0 0,
      readDigitsAux_stop rest h, foldl_frac5]
    simp only [Nat.zero_mul, Nat.zero_add, hmfmod, frac5_length, if_true]
    rw [hq, hval, hmq]
    exact Prod.ext (by ring) rfl
  · have hbody : fixedBody q ++ rest =
        natChars mi ++ ('.' :: (frac5 mf ++ rest)) := by
      rw [fixedBody, signChars, intChars, fracChars, ← hn, ← hm, ← hmi, ← hmf,
        if_neg hneg]
      simp [List.append_assoc]
    obtain ⟨c0, t0, hx⟩ : ∃ c0 t0, natChars mi = c0 :: t0 := by
      cases hxx : natChars mi with
      | nil => exact absurd hxx (natChars_ne_nil mi)
      | cons a0 b0 => exact ⟨a0, b0, rfl⟩
    have hc0 : c0.isDigit = true :=
      mem_natChars_isDigit mi c0 (by rw [hx]; exact List.mem_cons_self c0 t0)
    have hs1 : (fixedChars q ++ rest).dropWhile (fun cc => cc == ' ') =
        natChars mi ++ ('.' :: (frac5 mf ++ rest)) := by
      rw [fixedChars, List.append_assoc, dropWhile_space_replicate, hbody, hx,
        List.cons_append, dropWhile_space_cons _ (isDigit_beq_space hc0),
        ← List.cons_append, ← hx]
    have hnegfalse : decide ((natChars mi ++ ('.' :: (frac5 mf ++ rest))).head? =
        some '-') = false := by
      rw [hx, List.cons_append, List.head?_cons, decide_eq_false]
      simp only [ne_eq, Option.some.injEq]
      exact isDigit_ne_minus hc0
    have hmq : (m : ℚ) = (n : ℚ) := by
      rw [hm, Int.cast_natAbs, abs_of_nonneg (not_lt.mp hneg)]
    simp only [parseField]
    rw [hs1, hnegfalse]
    simp only [Bool.false_eq_true, if_false]
    rw [readDigitsAux_run (natChars mi) (mem_natChars_isDigit mi) _ 0 0,
      readDigitsAux_stop _ hstopdot, foldl_natChars]
    simp only [Nat.zero_mul, Nat.zero_add]
    rw [readDigitsAux_run (frac5 mf) (mem_frac5_isDigit mf) rest 0 0,
      readDigitsAux_stop rest h, foldl_frac5]
    simp only [Nat.zero_mul, Nat.zero_add, hmfmod, frac5_length, Bool.false_eq_true,
      if_false, if_true]
    rw [hq, hval, hmq]
    exact Prod.ext (by ring) rfl

theorem parseField_cons_space (l : List Char) :
    parseField (' ' :: l) = parseField l := by
  simp [parseField, List.dropWhile_cons]

theorem parseLine3_lineChars (r1 r2 r3 : ℚ) :
    parseLine3 (lineChars (r1, r2, r3)) = (qfix r1, qfix r2, qfix r3) := by
  have e1 : lineChars (r1, r2, r3) =
      fixedChars r1 ++ (' ' :: (fixedChars r2 ++ (' ' :: (fixedChars r3 ++ ['\n'])))) := by
    simp [lineChars, List.append_assoc]
  have e2 : parseField (lineChars (r1, r2, r3)) =
      (qfix r1, ' ' :: (fixedChars r2 ++ (' ' :: (fixedChars r3 ++ ['\n'])))) := by
    rw [e1]
    exact parseField_fixedChars r1 _ (by rw [headNotDigit_cons]; decide)
  have e3 : parseField (' ' :: (fixedChars r2 ++ (' ' :: (fixedChars r3 ++ ['\n'])))) =
      (qfix r2, ' ' :: (fixedChars r3 ++ ['\n'])) := by
    rw [parseField_cons_space]
    exact parseField_fixedChars r2 _ (by rw [headNotDigit_cons]; decide)
  have e4 : parseField (' ' :: (fixedChars r3 ++ ['\n'])) = (qfix r3, ['\n']) := by
    rw [parseField_cons_space]
    exact parseField_fixedChars r3 _ (by rw [headNotDigit_cons]; decide)
  simp only [parseLine3, e2, e3, e4]

theorem abs_qfix_sub (q : ℚ) : |qfix q - q| ≤ 1 / 100000 := by
  have h := abs_sub_round (q * 100000)
  rw [abs_sub_comm] at h
  have h3 : qfix q - q = ((round (q * 100000) : ℚ) - q * 100000) / 100000 := by
    rw [qfix]
    ring
  rw [h3, abs_div, show |(100000 : ℚ)| = 100000 from by norm_num]
  have h4 : |(round (q * 100000) : ℚ) - q * 100000| / 100000 ≤ (1 / 2) / 100000 :=
    (div_le_div_iff_of_pos_right (by norm_num)).mpr h
  linarith

/-! ### Claim theorems -/

/-- C1: the x-grid is an ordered sequence of exactly 301 values, strictly
increasing, starting at -3.0 and ending at 3.0, and for every index
i ∈ [0,300] the emitted x_i equals -3.0 + i·0.02 = -3.0 + i·(6.0/300),
within tolerance 1e-9 (in the exact-rational model, exactly). -/
theorem c1_x_grid :
    x.length = 301 ∧ List.Pairwise (fun p q => p < q) x ∧
    x.head? = some (-3) ∧ x.getLast? = some 3 ∧
    ∀ i : Fin 301, x.getD i 0 = -3 + ((i : ℕ) : ℚ) * (6 / 300) ∧
      |x.getD i 0 - (-3 + ((i : ℕ) : ℚ) * (2 / 100))| ≤ 1 / 10 ^ 9 := by
  refine ⟨x_length, x_pairwise, ?_, ?_, ?_⟩
  · rw [List.head?_eq_getElem?, x_getElem? 0 (by norm_num)]
    norm_num
  · rw [List.getLast?_eq_getElem?, x_length, x_getElem? 300 (by norm_num)]
    norm_num
  · intro i
    rw [x_getD i i.isLt]
    norm_num

/-- C2: for every grid index i, sigma_i = 1 + 0.05·|y_ideal_i| with
y_ideal_i = 4.2·x_i² + 0.666·x_i − 0.23 (exactly, in the rational model),
and consequently sigma_i ≥ 1. -/
theorem c2_sigma :
    sig_y.length = 301 ∧
    ∀ i : Fin 301,
      sig_y.getD i 0 =
        1 + 0.05 * |4.2 * (x.getD i 0) ^ 2 + 0.666 * (x.getD i 0) - 0.23| ∧
      1 ≤ sig_y.getD i 0 := by
  constructor
  · rw [sig_y, sigOf_length, x_length]
  · intro i
    rw [sig_y_getD i i.isLt, y_getD i i.isLt]
    constructor
    · rw [a, b, c]
      ring_nf
    · have h0 : (0 : ℚ) ≤ |a * (x.getD i 0) ^ 2 + b * (x.getD i 0) + c| := abs_nonneg _
      nlinarith

/-- C3: the written output is exactly the 301 data lines in grid order,
nothing before or after them; line i holds the three fields x_i, noisyY_i,
sigmaY_i, each rendered by `%10.5f` (field width at least 10, exactly five
digits after the decimal point), separated by single spaces and terminated
by a newline. -/
theorem c3_file_format (z : ℕ → ℚ) :
    ((rowsOf x z).map lineChars).length = 301 ∧
    fileChars x z = ((rowsOf x z).map lineChars).flatten ∧
    (∀ i : Fin 301,
      ((rowsOf x z).map lineChars).getD i [] =
        fixedChars (x.getD i 0) ++ [' '] ++
          fixedChars ((randomized_y z).getD i 0) ++ [' '] ++
          fixedChars (sig_y.getD i 0) ++ ['\n']) ∧
    (∀ q : ℚ, 10 ≤ (fixedChars q).length ∧
      ∃ pre ds, fixedChars q = pre ++ '.' :: ds ∧ ds.length = 5 ∧
        ds.all (fun cc => cc.isDigit) = true) := by
  refine ⟨?_, rfl, ?_, ?_⟩
  · simp [rowsOf, x_length]
  · intro i
    rw [rowsOf, List.map_map, x_length, getD_map_range _ _ i.isLt]
    simp only [Function.comp_apply, lineChars, randomized_y, sig_y]
  · intro q
    refine ⟨fixedChars_length q,
      List.replicate (10 - (fixedBody q).length) ' ' ++ signChars q ++ intChars q,
      fracChars q, fixedChars_eq q, rfl, ?_⟩
    simp only [List.all_eq_true]
    intro cc hcc
    exact mem_frac5_isDigit _ cc hcc

/-- C5: the ideal value at every grid index is
y_ideal_i = 4.2·x_i² + 0.666·x_i − 0.23, with the fixed constants
a = 4.2, b = 0.666, c = -0.23. -/
theorem c5_ideal_values :
    a = 4.2 ∧ b = 0.666 ∧ c = -0.23 ∧ y.length = 301 ∧
    ∀ i : Fin 301,
      y.getD i 0 = 4.2 * (x.getD i 0) ^ 2 + 0.666 * (x.getD i 0) - 0.23 := by
  refine ⟨rfl, rfl, rfl, ?_, ?_⟩
  · rw [y, yOf_length, x_length]
  · intro i
    rw [y_getD i i.isLt, a, b, c]
    ring_nf

/-- C6: parsing any written line back as three whitespace-separated decimal
columns recovers the in-memory (x, noisyY, sigmaY) triple of that row to
within 1e-5 (the written precision). -/
theorem c6_roundtrip (z : ℕ → ℚ) (i : Fin 301) :
    |(parseLine3 (((rowsOf x z).map lineChars).getD i [])).1 -
        x.getD i 0| ≤ 1 / 100000 ∧
    |(parseLine3 (((rowsOf x z).map lineChars).getD i [])).2.1 -
        (randomized_y z).getD i 0| ≤ 1 / 100000 ∧
    |(parseLine3 (((rowsOf x z).map lineChars).getD i [])).2.2 -
        sig_y.getD i 0| ≤ 1 / 100000 := by
  have hline : ((rowsOf x z).map lineChars).getD i [] =
      lineChars (x.getD i 0, (randomized_y z).getD i 0, sig_y.getD i 0) := by
    rw [rowsOf, List.map_map, x_length, getD_map_range _ _ i.isLt]
    simp only [Function.comp_apply, randomized_y, sig_y]
  rw [hline, parseLine3_lineChars]
  exact ⟨abs_qfix_sub _, abs_qfix_sub _, abs_qfix_sub _⟩

/-- C7: at grid index 150 the computation yields x = 0.0, y_ideal = -0.23
and sigma = 1.0115; at grid index 0 it yields x = -3.0, y_ideal = 35.572
and sigma = 2.7786. -/
theorem c7_spot_values :
    x.getD 150 0 = 0 ∧ y.getD 150 0 = -0.23 ∧ sig_y.getD 150 0 = 1.0115 ∧
    x.getD 0 0 = -3 ∧ y.getD 0 0 = 35.572 ∧ sig_y.getD 0 0 = 2.7786 := by
  have hx150 : x.getD 150 0 = 0 := by rw [x_getD 150 (by norm_num)]; norm_num
  have hx0 : x.getD 0 0 = -3 := by rw [x_getD 0 (by norm_num)]; norm_num
  have hy150 : y.getD 150 0 = -0.23 := by
    rw [y_getD 150 (by norm_num), hx150, a, b, c]; norm_num
  have hy0 : y.getD 0 0 = 35.572 := by
    rw [y_getD 0 (by norm_num), hx0, a, b, c]; norm_num
  have hs150 : sig_y.getD 150 0 = 1.0115 := by
    rw [sig_y_getD 150 (by norm_num), hy150, abs_of_nonpos (by norm_num)]
    norm_num
  have hs0 : sig_y.getD 0 0 = 2.7786 := by
    rw [sig_y_getD 0 (by norm_num), hy0, abs_of_nonneg (by norm_num)]
    norm_num
  exact ⟨hx150, hy150, hs150, hx0, hy0, hs0⟩

/-- C4: for every grid index i, the noisy value is exactly one `gauss` draw
with mean y_ideal_i and standard deviation sigma_i, consuming the single
stream element z i (one independent draw per index; the stream z is the
only source of randomness in the pipeline). -/
theorem c4_noise_model (z : ℕ → ℚ) :
    (randomized_y z).length = 301 ∧
    ∀ i : Fin 301,
      (randomized_y z).getD i 0 = gauss (y.getD i 0) (sig_y.getD i 0) (z i) ∧
      (randomized_y z).getD i 0 = y.getD i 0 + sig_y.getD i 0 * z i := by
  constructor
  · rw [randomized_y, randomizedYOf]
    simp [yOf_length, x_length]
  · intro i
    have h : (i : ℕ) < (yOf x).length := by rw [yOf_length, x_length]; exact i.isLt
    rw [randomized_y, randomizedYOf, getD_map_range _ _ h]
    exact ⟨rfl, rfl⟩

/-- C10: for any two entropy streams (any two runs of the program), the x
column and the sigma column of the produced dataset are identical; only
the noisy-y column can differ between runs. -/
theorem c10_columns_noise_free (z1 z2 : ℕ → ℚ) :
    (rowsOf x z1).map (fun r => r.1) = (rowsOf x z2).map (fun r => r.1) ∧
    (rowsOf x z1).map (fun r => r.2.2) = (rowsOf x z2).map (fun r => r.2.2) := by
  constructor <;> simp [rowsOf, List.map_map]

/-- C8: if the write of the output file fails with an IO error, the script
returns exactly that error — it has no handler, so the error propagates
to the top level unmodified and is never replaced by a default output. -/
theorem c8_ioerror_propagates (z : ℕ → ℚ) (w : List Char → Except String Unit)
    (e : String) (h : w (fileChars x z) = Except.error e) :
    script z w = Except.error e := h

/-- Witness for C8: a writer that fails with "disk full" makes the script
fail with "disk full". -/
theorem c8_witness :
    script (fun _ => 0) (fun _ => Except.error "disk full") =
      Except.error "disk full" :=
  c8_ioerror_propagates (fun _ => 0) (fun _ => Except.error "disk full")
    "disk full" rfl

/-- C9: invoked with a zero-length grid, the pipeline produces an empty
(0-byte, headerless) file content and the write succeeds without error. -/
theorem c9_empty_grid (z : ℕ → ℚ) :
    linspace (-3) 3 0 = [] ∧ fileChars (linspace (-3) 3 0) z = [] ∧
    savetxt (fun _ => Except.ok ()) (fileChars (linspace (-3) 3 0) z) =
      Except.ok () :=
  ⟨rfl, rfl, rfl⟩

end GenParabola
